import Mathlib

/-!
Shallow embedding of the CloudTrade trading backend
(src/backend/trading_backend.py): data model, cash operations, order
placement and the execution engine, together with proofs of the spec's
claims about them.

Modelling conventions:
* Python floats are modelled as exact rationals (ℚ).
* The SQL tables `orders` and `transactions` are modelled as lists in
  insertion (primary-key, hence creation-time) order; the keyed tables
  `stocks` (unique ticker), `cash_accounts` (unique user_id) and
  `holdings` (at most one row per (user, ticker), per the upsert logic)
  are modelled as partial maps.
* Python `ValueError` exceptions become `Except.error` carrying the
  source's message string; the `TypeError` Python would raise when a
  limit order's `limit_price` is `None` is modelled as
  `Except.error "TypeError"`.
* Market openness (`is_market_open()` consulted inside `_attempt_execute`)
  is passed in as a boolean parameter; the clock itself is embedded
  separately as `is_market_open` over explicit settings and an instant.
-/

namespace CloudTrade

inductive OrderSide where
  | buy
  | sell
deriving DecidableEq, Repr

inductive OrderType where
  | market
  | limit
deriving DecidableEq, Repr

inductive OrderStatus where
  | pending
  | filled
  | cancelled
  | rejected
deriving DecidableEq, Repr

/-- A row of the `users` table. -/
structure UserRec where
  id : Nat
  full_name : String
  username : String
  email : String
deriving DecidableEq, Repr

/-- A row of the `stocks` table (keyed by its unique `ticker`). -/
structure Stock where
  company_name : String
  ticker : String
  available_shares : ℚ
  price : ℚ
deriving DecidableEq, Repr

/-- A row of the `orders` table.  The source column `type` is called
`otype` here (`type` is awkward as a Lean field name); `filled_at` /
`created_at` timestamps are not modelled (creation order is the list
order). -/
structure Order where
  id : Nat
  user_id : Nat
  ticker : String
  quantity : ℚ
  side : OrderSide
  otype : OrderType
  limit_price : Option ℚ
  status : OrderStatus
  fill_price : Option ℚ
deriving DecidableEq, Repr

/-- A row of the `transactions` table (timestamp not modelled; the list
order is the append order). -/
structure Transaction where
  user_id : Nat
  kind : String
  ticker : Option String
  quantity : Option ℚ
  price : Option ℚ
  amount : ℚ
  balance_after : Option ℚ
deriving DecidableEq, Repr

/-- The whole database state. -/
structure LedgerState where
  users : List UserRec
  stocks : String → Option Stock
  cash_accounts : Nat → Option ℚ
  holdings : Nat → String → Option ℚ
  orders : List Order
  transactions : List Transaction

def emptyState : LedgerState where
  users := []
  stocks := fun _ => none
  cash_accounts := fun _ => none
  holdings := fun _ _ => none
  orders := []
  transactions := []

/-- Market settings (`MarketSettings` table): opening and closing
time-of-day in minutes and a holiday set of "YYYY-MM-DD" strings. -/
structure MarketSettings where
  open_minutes : Nat
  close_minutes : Nat
  holidays : List String
deriving DecidableEq, Repr

/-- An instant, as `is_market_open` consumes it: calendar date string,
weekday (0 = Monday, as Python's `weekday()`), minutes since midnight. -/
structure Instant where
  date : String
  weekday : Nat
  minutes : Nat
deriving DecidableEq, Repr

/-- `is_market_open`: closed on a holiday, on Saturday/Sunday
(`weekday() >= 5`), or outside the half-open interval
`[open_time, close_time)`. -/
def is_market_open (ms : MarketSettings) (at_dt : Instant) : Bool :=
  if ms.holidays.contains at_dt.date then false
  else if 5 ≤ at_dt.weekday then false
  else decide (ms.open_minutes ≤ at_dt.minutes) && decide (at_dt.minutes < ms.close_minutes)

/-- `create_user`: uniqueness check on username/email, then insert the
user together with a zero-balance cash account.  Returns the new id. -/
def create_user (st : LedgerState) (full_name username email : String) :
    Except String (LedgerState × Nat) :=
  if st.users.any (fun u => u.username == username || u.email == email) then
    .error "username or email already exists"
  else
    let uid := st.users.length + 1
    .ok ({ st with
      users := st.users ++ [{ id := uid, full_name := full_name,
                              username := username, email := email }]
      cash_accounts := fun u => if u = uid then some 0 else st.cash_accounts u }, uid)

/-- `create_stock`. -/
def create_stock (st : LedgerState) (company_name ticker : String)
    (total_shares : Int) (initial_price : ℚ) : Except String LedgerState :=
  if total_shares < 0 then .error "total_shares must be >= 0"
  else if initial_price ≤ 0 then .error "initial_price must be > 0"
  else
    let ticker := ticker.toUpper
    match st.stocks ticker with
    | some _ => .error "ticker already exists"
    | none => .ok { st with
        stocks := fun t => if t = ticker then
          some { company_name := company_name, ticker := ticker,
                 available_shares := (total_shares : ℚ), price := initial_price }
          else st.stocks t }

/-- `deposit_cash`.  Returns the new balance alongside the new state. -/
def deposit_cash (st : LedgerState) (user_id : Nat) (amount : ℚ) :
    Except String (LedgerState × ℚ) :=
  if amount ≤ 0 then .error "deposit must be > 0"
  else match st.cash_accounts user_id with
  | none => .error "unknown user"
  | some bal =>
    let newBal := bal + amount
    .ok ({ st with
      cash_accounts := fun u => if u = user_id then some newBal else st.cash_accounts u
      transactions := st.transactions ++
        [{ user_id := user_id, kind := "deposit", ticker := none, quantity := none,
           price := none, amount := amount, balance_after := some newBal }] }, newBal)

/-- `withdraw_cash`. -/
def withdraw_cash (st : LedgerState) (user_id : Nat) (amount : ℚ) :
    Except String (LedgerState × ℚ) :=
  if amount ≤ 0 then .error "withdraw must be > 0"
  else match st.cash_accounts user_id with
  | none => .error "unknown user"
  | some bal =>
    if bal < amount then .error "insufficient cash"
    else
      let newBal := bal - amount
      .ok ({ st with
        cash_accounts := fun u => if u = user_id then some newBal else st.cash_accounts u
        transactions := st.transactions ++
          [{ user_id := user_id, kind := "withdraw", ticker := none, quantity := none,
             price := none, amount := -amount, balance_after := some newBal }] }, newBal)

/-- `get_cash_balance`. -/
def get_cash_balance (st : LedgerState) (user_id : Nat) : Except String ℚ :=
  match st.cash_accounts user_id with
  | none => .error "unknown user"
  | some bal => .ok bal

/-- The ORM status update on the loaded order row, modelled as a map over
the list keyed by id. -/
def setOrderStatus (orders : List Order) (oid : Nat) (s : OrderStatus) : List Order :=
  orders.map fun o => if o.id == oid then { o with status := s } else o

/-- The fill finalisation: `status = FILLED`, `fill_price` recorded. -/
def fillOrder (orders : List Order) (oid : Nat) (fp : ℚ) : List Order :=
  orders.map fun o => if o.id == oid then
    { o with status := OrderStatus.filled, fill_price := some fp } else o

/-- The fill-price determination block of `_attempt_execute`
(source lines 418-428): market orders fill at the market price; a limit
buy is fillable iff `limit_price >= market_price` and a limit sell iff
`limit_price <= market_price`, in both cases at the resting limit price;
`.ok none` means "not fillable now"; the error is Python's `TypeError`
when a limit order has no limit price. -/
def determine_fill_price (order : Order) (market_price : ℚ) :
    Except String (Option ℚ) :=
  match order.otype with
  | .market => .ok (some market_price)
  | .limit =>
    match order.limit_price with
    | none => .error "TypeError"
    | some lp =>
      match order.side with
      | .buy => .ok (if market_price ≤ lp then some lp else none)
      | .sell => .ok (if lp ≤ market_price then some lp else none)

/-- `_attempt_execute`.  `marketOpen` is the result of the
`is_market_open()` call the source makes mid-function. -/
def attempt_execute (marketOpen : Bool) (st : LedgerState) (order_id : Nat) :
    Except String LedgerState :=
  match st.orders.find? (fun o => o.id == order_id) with
  | none => .ok st
  | some order =>
    if order.status ≠ OrderStatus.pending then .ok st
    else if ¬ marketOpen then .ok st
    else
      match st.stocks order.ticker with
      | none => .ok { st with orders := setOrderStatus st.orders order_id .rejected }
      | some stock =>
        match determine_fill_price order stock.price with
        | .error e => .error e
        | .ok none => .ok st
        | .ok (some fill_price) =>
          let qty := order.quantity
          match order.side with
          | .buy =>
            if stock.available_shares < qty then
              .ok { st with orders := setOrderStatus st.orders order_id .rejected }
            else
              match st.cash_accounts order.user_id with
              | none => .ok { st with orders := setOrderStatus st.orders order_id .rejected }
              | some bal =>
                if bal < qty * fill_price then
                  .ok { st with orders := setOrderStatus st.orders order_id .rejected }
                else
                  let newBal := bal - qty * fill_price
                  let newHolding :=
                    match st.holdings order.user_id order.ticker with
                    | some q => q + qty
                    | none => qty
                  .ok { st with
                    cash_accounts := fun u =>
                      if u = order.user_id then some newBal else st.cash_accounts u
                    stocks := fun t => if t = order.ticker then
                      some { stock with available_shares := stock.available_shares - qty }
                      else st.stocks t
                    holdings := fun u t =>
                      if u = order.user_id ∧ t = order.ticker then some newHolding
                      else st.holdings u t
                    transactions := st.transactions ++
                      [{ user_id := order.user_id, kind := "buy", ticker := some order.ticker,
                         quantity := some qty, price := some fill_price,
                         amount := -(qty * fill_price), balance_after := some newBal }]
                    orders := fillOrder st.orders order_id fill_price }
          | .sell =>
            match st.holdings order.user_id order.ticker with
            | none => .ok { st with orders := setOrderStatus st.orders order_id .rejected }
            | some hq =>
              if hq < qty then
                .ok { st with orders := setOrderStatus st.orders order_id .rejected }
              else
                let bal := (st.cash_accounts order.user_id).getD 0
                let newBal := bal + qty * fill_price
                .ok { st with
                  holdings := fun u t =>
                    if u = order.user_id ∧ t = order.ticker then some (hq - qty)
                    else st.holdings u t
                  stocks := fun t => if t = order.ticker then
                    some { stock with available_shares := stock.available_shares + qty }
                    else st.stocks t
                  cash_accounts := fun u =>
                    if u = order.user_id then some newBal else st.cash_accounts u
                  transactions := st.transactions ++
                    [{ user_id := order.user_id, kind := "sell", ticker := some order.ticker,
                       quantity := some qty, price := some fill_price,
                       amount := qty * fill_price, balance_after := some newBal }]
                  orders := fillOrder st.orders order_id fill_price }

/-- The source's `order_type == "limit" and (price is None or price <= 0)`
validation predicate. -/
def limitPriceInvalid (price : Option ℚ) : Bool :=
  match price with
  | none => true
  | some p => decide (p ≤ 0)

/-- `place_order`: validations, persist a pending order (fresh id,
`limit_price` stores the `price` argument verbatim, whatever the order
type), then one synchronous `_attempt_execute`. -/
def place_order (marketOpen : Bool) (st : LedgerState) (user_id : Nat)
    (ticker : String) (quantity : ℚ) (side : String) (order_type : String)
    (price : Option ℚ) : Except String (LedgerState × Nat) :=
  let ticker := ticker.toUpper
  let side := side.toLower
  let order_type := order_type.toLower
  if quantity ≤ 0 then .error "quantity must be > 0"
  else if side ≠ "buy" ∧ side ≠ "sell" then .error "side must be 'buy' or 'sell'"
  else if order_type ≠ "market" ∧ order_type ≠ "limit" then
    .error "order_type must be 'market' or 'limit'"
  else if order_type = "limit" ∧ limitPriceInvalid price then
    .error "limit orders require positive price"
  else if (st.users.find? (fun u => u.id == user_id)).isNone then .error "unknown user"
  else match st.stocks ticker with
  | none => .error "unknown ticker"
  | some _ =>
    let oid := st.orders.length + 1
    let order : Order :=
      { id := oid, user_id := user_id, ticker := ticker, quantity := quantity,
        side := if side = "buy" then .buy else .sell,
        otype := if order_type = "market" then .market else .limit,
        limit_price := price, status := .pending, fill_price := none }
    let st1 : LedgerState := { st with orders := st.orders ++ [order] }
    match attempt_execute marketOpen st1 oid with
    | .error e => .error e
    | .ok st2 => .ok (st2, oid)

/-- The loop body of `trigger_pending_orders_for_ticker` /
`trigger_pending_orders`: run `_attempt_execute` over a snapshot of ids. -/
def run_attempts (marketOpen : Bool) (st : LedgerState) :
    List Nat → Except String LedgerState
  | [] => .ok st
  | oid :: rest =>
    match attempt_execute marketOpen st oid with
    | .error e => .error e
    | .ok st1 => run_attempts marketOpen st1 rest

/-- `trigger_pending_orders_for_ticker`: snapshot the ids of the pending
orders for the ticker (in table order, i.e. ascending primary key /
creation time), then attempt each. -/
def trigger_pending_orders_for_ticker (marketOpen : Bool) (st : LedgerState)
    (ticker : String) : Except String LedgerState :=
  let ticker := ticker.toUpper
  let ids := (st.orders.filter
    (fun o => o.ticker == ticker && o.status == OrderStatus.pending)).map (fun o => o.id)
  run_attempts marketOpen st ids

/-- `update_stock_price`: validate, persist the price, then re-trigger
that ticker's pending orders. -/
def update_stock_price (marketOpen : Bool) (st : LedgerState) (ticker : String)
    (new_price : ℚ) : Except String LedgerState :=
  let ticker := ticker.toUpper
  if new_price ≤ 0 then .error "price must be > 0"
  else match st.stocks ticker with
  | none => .error "unknown ticker"
  | some _ =>
    let st1 : LedgerState := { st with
      stocks := fun t => if t = ticker then
        (st.stocks t).map (fun s => { s with price := new_price }) else st.stocks t }
    trigger_pending_orders_for_ticker marketOpen st1 ticker

/-- `cancel_order`. -/
def cancel_order (st : LedgerState) (order_id : Nat) : LedgerState × Bool :=
  match st.orders.find? (fun o => o.id == order_id) with
  | none => (st, false)
  | some o =>
    if o.status ≠ OrderStatus.pending then (st, false)
    else ({ st with orders := setOrderStatus st.orders order_id .cancelled }, true)

/-- Status of an order as observed through a fresh lookup. -/
def orderStatusOf (st : LedgerState) (oid : Nat) : Option OrderStatus :=
  (st.orders.find? (fun o => o.id == oid)).map (fun o => o.status)

/-- Recorded fill price of an order as observed through a fresh lookup. -/
def fillPriceOf (st : LedgerState) (oid : Nat) : Option (Option ℚ) :=
  (st.orders.find? (fun o => o.id == oid)).map (fun o => o.fill_price)

/-! ### Lookup lemmas for the keyed order-list updates -/

theorem find?_id_map (l : List Order) (g : Order → Order) (oid n : Nat)
    (hg : ∀ x, (g x).id = x.id) :
    (l.map (fun x => if x.id == oid then g x else x)).find? (fun y => y.id == n) =
      (l.find? (fun y => y.id == n)).map (fun x => if x.id == oid then g x else x) := by
  rw [List.find?_map]
  have hcomp : ((fun y => y.id == n) ∘ fun x => if x.id == oid then g x else x) =
      (fun y => y.id == n) := by
    funext x
    by_cases h : x.id == oid
    · simp [Function.comp, h, hg]
    · simp [Function.comp, h]
  rw [hcomp]

theorem find?_setOrderStatus (l : List Order) (oid n : Nat) (s : OrderStatus) :
    (setOrderStatus l oid s).find? (fun y => y.id == n) =
      (l.find? (fun y => y.id == n)).map
        (fun x => if x.id == oid then { x with status := s } else x) := by
  unfold setOrderStatus
  exact find?_id_map l _ oid n (fun x => rfl)

theorem find?_fillOrder (l : List Order) (oid n : Nat) (fp : ℚ) :
    (fillOrder l oid fp).find? (fun y => y.id == n) =
      (l.find? (fun y => y.id == n)).map
        (fun x => if x.id == oid then
          { x with status := OrderStatus.filled, fill_price := some fp } else x) := by
  unfold fillOrder
  exact find?_id_map l _ oid n (fun x => rfl)

theorem status_find?_setOrderStatus (l : List Order) (oid : Nat) (s : OrderStatus)
    (o : Order) (h : l.find? (fun y => y.id == oid) = some o) :
    ((setOrderStatus l oid s).find? (fun y => y.id == oid)).map (fun x => x.status) =
      some s := by
  have ho : (o.id == oid) = true := by
    have h2 := List.find?_some h
    simpa using h2
  have ho2 : o.id = oid := by simpa using ho
  simp [find?_setOrderStatus, h, ho, ho2]

theorem status_find?_fillOrder (l : List Order) (oid : Nat) (fp : ℚ) (o : Order)
    (h : l.find? (fun y => y.id == oid) = some o) :
    ((fillOrder l oid fp).find? (fun y => y.id == oid)).map (fun x => x.status) =
      some OrderStatus.filled := by
  have ho : (o.id == oid) = true := by
    have h2 := List.find?_some h
    simpa using h2
  have ho2 : o.id = oid := by simpa using ho
  simp [find?_fillOrder, h, ho, ho2]

theorem fp_find?_fillOrder (l : List Order) (oid : Nat) (fp : ℚ) (o : Order)
    (h : l.find? (fun y => y.id == oid) = some o) :
    ((fillOrder l oid fp).find? (fun y => y.id == oid)).map (fun x => x.fill_price) =
      some (some fp) := by
  have ho : (o.id == oid) = true := by
    have h2 := List.find?_some h
    simpa using h2
  have ho2 : o.id = oid := by simpa using ho
  simp [find?_fillOrder, h, ho, ho2]

/-! ### Cash-operation sequences (for the balance-nonnegativity invariant) -/

/-- One cash operation as issued by a caller. -/
inductive CashOp where
  | dep (amount : ℚ)
  | wd (amount : ℚ)
deriving DecidableEq, Repr

/-- Apply one cash operation for a user; a raised validation error leaves
the state unchanged (the source raises before any mutation is committed). -/
def apply_cash_op (st : LedgerState) (u : Nat) : CashOp → LedgerState
  | .dep a =>
    match deposit_cash st u a with
    | .ok p => p.1
    | .error _ => st
  | .wd a =>
    match withdraw_cash st u a with
    | .ok p => p.1
    | .error _ => st

/-- Apply a sequence of cash operations, each tagged with its user. -/
def apply_cash_ops (st : LedgerState) : List (Nat × CashOp) → LedgerState
  | [] => st
  | (u, op) :: rest => apply_cash_ops (apply_cash_op st u op) rest

/-- Every existing cash-account balance is nonnegative. -/
def balancesNonneg (st : LedgerState) : Prop :=
  ∀ v b, st.cash_accounts v = some b → 0 ≤ b

/-- Inversion of a successful `deposit_cash`. -/
theorem deposit_cash_ok (st : LedgerState) (u : Nat) (a : ℚ) (st' : LedgerState) (r : ℚ)
    (h : deposit_cash st u a = .ok (st', r)) :
    ∃ bal, st.cash_accounts u = some bal ∧ 0 < a ∧ r = bal + a ∧
      st' = { st with
        cash_accounts := fun v => if v = u then some (bal + a) else st.cash_accounts v
        transactions := st.transactions ++
          [⟨u, "deposit", none, none, none, a, some (bal + a)⟩] } := by
  unfold deposit_cash at h
  by_cases ha : a ≤ 0
  · rw [if_pos ha] at h; exact (Except.noConfusion h)
  · rw [if_neg ha] at h
    cases hacct : st.cash_accounts u with
    | none => rw [hacct] at h; exact (Except.noConfusion h)
    | some bal =>
      rw [hacct] at h
      simp only [] at h
      injection h with h1
      injection h1 with h2 h3
      exact ⟨bal, rfl, not_le.1 ha, h3.symm, h2.symm⟩

/-- Inversion of a successful `withdraw_cash`. -/
theorem withdraw_cash_ok (st : LedgerState) (u : Nat) (a : ℚ) (st' : LedgerState) (r : ℚ)
    (h : withdraw_cash st u a = .ok (st', r)) :
    ∃ bal, st.cash_accounts u = some bal ∧ 0 < a ∧ a ≤ bal ∧ r = bal - a ∧
      st' = { st with
        cash_accounts := fun v => if v = u then some (bal - a) else st.cash_accounts v
        transactions := st.transactions ++
          [⟨u, "withdraw", none, none, none, -a, some (bal - a)⟩] } := by
  unfold withdraw_cash at h
  by_cases ha : a ≤ 0
  · rw [if_pos ha] at h; exact (Except.noConfusion h)
  · rw [if_neg ha] at h
    cases hacct : st.cash_accounts u with
    | none => rw [hacct] at h; exact (Except.noConfusion h)
    | some bal =>
      rw [hacct] at h
      simp only [] at h
      by_cases hlt : bal < a
      · rw [if_pos hlt] at h; exact (Except.noConfusion h)
      · rw [if_neg hlt] at h
        injection h with h1
        injection h1 with h2 h3
        exact ⟨bal, rfl, not_le.1 ha, not_lt.1 hlt, h3.symm, h2.symm⟩

theorem apply_cash_op_nonneg (st : LedgerState) (u : Nat) (op : CashOp)
    (h : balancesNonneg st) : balancesNonneg (apply_cash_op st u op) := by
  cases op with
  | dep a =>
    simp only [apply_cash_op]
    cases hm : deposit_cash st u a with
    | error e => exact h
    | ok p =>
      obtain ⟨bal, hacct, hpos, _, hst⟩ := deposit_cash_ok st u a p.1 p.2 (by rw [hm])
      simp only []
      rw [hst]
      intro v b hv
      by_cases hvu : v = u
      · subst hvu
        simp at hv
        have h0 : 0 ≤ bal := h v bal hacct
        linarith [hv]
      · simp [hvu] at hv
        exact h v b hv
  | wd a =>
    simp only [apply_cash_op]
    cases hm : withdraw_cash st u a with
    | error e => exact h
    | ok p =>
      obtain ⟨bal, hacct, hpos, hle, _, hst⟩ := withdraw_cash_ok st u a p.1 p.2 (by rw [hm])
      simp only []
      rw [hst]
      intro v b hv
      by_cases hvu : v = u
      · subst hvu
        simp at hv
        linarith [hv]
      · simp [hvu] at hv
        exact h v b hv

theorem apply_cash_ops_nonneg (ops : List (Nat × CashOp)) :
    ∀ st : LedgerState, balancesNonneg st → balancesNonneg (apply_cash_ops st ops) := by
  induction ops with
  | nil => intro st h; exact h
  | cons p rest ih =>
    intro st h
    exact ih (apply_cash_op st p.1 p.2) (apply_cash_op_nonneg st p.1 p.2 h)

/-! ### C6: deposit/withdraw error conditions, effects, and nonnegativity -/

/-- C6: with an existing account of balance `bal`: `withdraw_cash` raises
`InvalidArgument` ("withdraw must be > 0") iff `amount <= 0` and
`InsufficientFunds` ("insufficient cash") iff `0 < amount` and
`amount > bal`; exactly when neither holds it debits the account by
`amount` and appends a `withdraw` transaction whose `balance_after` is the
resulting balance.  `deposit_cash` behaves dually.  Any sequence of
deposits/withdrawals preserves nonnegativity of every balance. -/
theorem cash_ops_correct (st : LedgerState) (u : Nat) (bal a : ℚ)
    (hacct : st.cash_accounts u = some bal) :
    (withdraw_cash st u a = .error "withdraw must be > 0" ↔ a ≤ 0)
    ∧ (withdraw_cash st u a = .error "insufficient cash" ↔ (0 < a ∧ bal < a))
    ∧ (0 < a → a ≤ bal →
        ∃ st', withdraw_cash st u a = .ok (st', bal - a) ∧
          st'.cash_accounts u = some (bal - a) ∧
          st'.transactions = st.transactions ++
            [⟨u, "withdraw", none, none, none, -a, some (bal - a)⟩])
    ∧ (deposit_cash st u a = .error "deposit must be > 0" ↔ a ≤ 0)
    ∧ (0 < a →
        ∃ st', deposit_cash st u a = .ok (st', bal + a) ∧
          st'.cash_accounts u = some (bal + a) ∧
          st'.transactions = st.transactions ++
            [⟨u, "deposit", none, none, none, a, some (bal + a)⟩])
    ∧ (balancesNonneg st → ∀ ops, balancesNonneg (apply_cash_ops st ops)) := by
  refine ⟨?_, ?_, ?_, ?_, ?_, ?_⟩
  · unfold withdraw_cash
    by_cases ha : a ≤ 0
    · simp [ha]
    · rw [if_neg ha, hacct]
      simp only []
      by_cases hlt : bal < a <;> simp [hlt, ha]
  · unfold withdraw_cash
    by_cases ha : a ≤ 0
    · simp [ha]
    · rw [if_neg ha, hacct]
      simp only []
      by_cases hlt : bal < a <;> simp [hlt, ha, not_le.1 ha]
  · intro ha hle
    unfold withdraw_cash
    rw [if_neg (not_le.2 ha), hacct]
    simp only []
    rw [if_neg (not_lt.2 hle)]
    exact ⟨_, rfl, by simp, rfl⟩
  · unfold deposit_cash
    by_cases ha : a ≤ 0
    · simp [ha]
    · rw [if_neg ha, hacct]
      simp only []
      simp [ha]
  · intro ha
    unfold deposit_cash
    rw [if_neg (not_le.2 ha), hacct]
    simp only []
    exact ⟨_, rfl, by simp, rfl⟩
  · intro h ops
    exact apply_cash_ops_nonneg ops st h

/-- Witness for C6 at a concrete account (user 1 with balance 5,
amount 3). -/
theorem cash_ops_correct_witness :
    ({ emptyState with cash_accounts := fun u => if u = 1 then some 5 else none } :
        LedgerState).cash_accounts 1 = some 5
    ∧ ((withdraw_cash { emptyState with
          cash_accounts := fun u => if u = 1 then some 5 else none } 1 3 =
            .error "withdraw must be > 0" ↔ (3:ℚ) ≤ 0)
      ∧ (withdraw_cash { emptyState with
          cash_accounts := fun u => if u = 1 then some 5 else none } 1 3 =
            .error "insufficient cash" ↔ ((0:ℚ) < 3 ∧ (5:ℚ) < 3))
      ∧ ((0:ℚ) < 3 → (3:ℚ) ≤ 5 →
          ∃ st', withdraw_cash { emptyState with
              cash_accounts := fun u => if u = 1 then some 5 else none } 1 3 =
              .ok (st', 5 - 3) ∧
            st'.cash_accounts 1 = some (5 - 3) ∧
            st'.transactions = ({ emptyState with
              cash_accounts := fun u => if u = 1 then some 5 else none } :
                LedgerState).transactions ++
              [⟨1, "withdraw", none, none, none, -3, some (5 - 3)⟩])
      ∧ (deposit_cash { emptyState with
          cash_accounts := fun u => if u = 1 then some 5 else none } 1 3 =
            .error "deposit must be > 0" ↔ (3:ℚ) ≤ 0)
      ∧ ((0:ℚ) < 3 →
          ∃ st', deposit_cash { emptyState with
              cash_accounts := fun u => if u = 1 then some 5 else none } 1 3 =
              .ok (st', 5 + 3) ∧
            st'.cash_accounts 1 = some (5 + 3) ∧
            st'.transactions = ({ emptyState with
              cash_accounts := fun u => if u = 1 then some 5 else none } :
                LedgerState).transactions ++
              [⟨1, "deposit", none, none, none, 3, some (5 + 3)⟩])
      ∧ (balancesNonneg { emptyState with
            cash_accounts := fun u => if u = 1 then some 5 else none } →
          ∀ ops, balancesNonneg (apply_cash_ops { emptyState with
            cash_accounts := fun u => if u = 1 then some 5 else none } ops))) :=
  ⟨by decide, cash_ops_correct _ 1 5 3 (by decide)⟩

/-! ### C5: a closed market makes `attempt_execute` a complete no-op -/

/-- C5: if the market clock reports closed at the moment `_attempt_execute`
runs, the call leaves the entire ledger state unchanged (so a pending —
even fillable — order stays pending, and no cash account, holding,
instrument or transaction row is touched). -/
theorem closed_market_attempt_is_noop (ms : MarketSettings) (now : Instant)
    (st : LedgerState) (oid : Nat) (h : is_market_open ms now = false) :
    attempt_execute (is_market_open ms now) st oid = .ok st := by
  rw [h]
  unfold attempt_execute
  cases hf : st.orders.find? (fun o => o.id == oid) with
  | none => rfl
  | some o =>
    by_cases hs : o.status = OrderStatus.pending
    · simp [hs]
    · simp [hs]

/-- Witness for C5 at a concrete closed instant (a Saturday inside
normal trading hours) and a state holding a fillable pending order. -/
theorem closed_market_attempt_is_noop_witness :
    is_market_open ⟨570, 960, []⟩ ⟨"2026-10-10", 5, 600⟩ = false ∧
      attempt_execute (is_market_open ⟨570, 960, []⟩ ⟨"2026-10-10", 5, 600⟩)
        { emptyState with
          stocks := fun t => if t = "ACME" then some ⟨"Acme", "ACME", 100, 10⟩ else none
          cash_accounts := fun u => if u = 1 then some 1000 else none
          orders := [⟨1, 1, "ACME", 5, .buy, .market, none, .pending, none⟩] } 1 =
      .ok { emptyState with
          stocks := fun t => if t = "ACME" then some ⟨"Acme", "ACME", 100, 10⟩ else none
          cash_accounts := fun u => if u = 1 then some 1000 else none
          orders := [⟨1, 1, "ACME", 5, .buy, .market, none, .pending, none⟩] } :=
  ⟨by decide, closed_market_attempt_is_noop _ _ _ _ (by decide)⟩

/-! ### C10: `create_user` creates a zero-balance cash account -/

/-- C10: on success `create_user` has created the new user's cash account
with balance exactly 0 in the same operation: the account row exists with
balance 0, `get_cash_balance` returns 0, and any positive withdrawal
before the first deposit fails with `InsufficientFunds`
("insufficient cash"). -/
theorem create_user_zero_balance (st : LedgerState) (fn un em : String)
    (st' : LedgerState) (uid : Nat)
    (h : create_user st fn un em = .ok (st', uid)) :
    st'.cash_accounts uid = some 0 ∧ get_cash_balance st' uid = .ok 0 ∧
      ∀ a : ℚ, 0 < a → withdraw_cash st' uid a = .error "insufficient cash" := by
  unfold create_user at h
  by_cases hc : st.users.any (fun u => u.username == un || u.email == em)
  · rw [if_pos hc] at h
    exact (Except.noConfusion h)
  · rw [if_neg hc] at h
    simp only [] at h
    injection h with h1
    injection h1 with h2 h3
    subst h3
    have hcash : st'.cash_accounts (st.users.length + 1) = some 0 := by
      rw [← h2]
      simp
    refine ⟨hcash, ?_, ?_⟩
    · unfold get_cash_balance
      rw [hcash]
    · intro a ha
      unfold withdraw_cash
      rw [if_neg (not_le.2 ha), hcash]
      simp only []
      rw [if_pos ha]

/-- Witness for C10: creating a user in the empty ledger. -/
theorem create_user_zero_balance_witness :
    (create_user emptyState "Alice Ann" "alice" "alice@example.com" =
      .ok ({ emptyState with
        users := [⟨1, "Alice Ann", "alice", "alice@example.com"⟩]
        cash_accounts := fun u => if u = 1 then some 0 else emptyState.cash_accounts u }, 1))
    ∧ (({ emptyState with
        users := [⟨1, "Alice Ann", "alice", "alice@example.com"⟩]
        cash_accounts := fun u => if u = 1 then some 0 else emptyState.cash_accounts u } :
          LedgerState).cash_accounts 1 = some 0
      ∧ get_cash_balance { emptyState with
          users := [⟨1, "Alice Ann", "alice", "alice@example.com"⟩]
          cash_accounts := fun u => if u = 1 then some 0 else emptyState.cash_accounts u } 1 =
            .ok 0
      ∧ ∀ a : ℚ, 0 < a → withdraw_cash { emptyState with
          users := [⟨1, "Alice Ann", "alice", "alice@example.com"⟩]
          cash_accounts := fun u => if u = 1 then some 0 else emptyState.cash_accounts u } 1 a =
            .error "insufficient cash") :=
  ⟨rfl, create_user_zero_balance emptyState "Alice Ann" "alice" "alice@example.com" _ 1 rfl⟩

/-! ### C1: market buy fills iff cash and shares suffice -/

/-- C1: a pending market buy of quantity `q` on an instrument priced `p`
(market open, account present with balance `bal`) fills iff
`q <= availableShares` and `q*p <= bal`; on fill the buyer's cash drops by
exactly `q*p`, `availableShares` drops by `q`, the holding is upserted to
its old value (0 if absent) plus `q`, a `buy` transaction with amount
`-(q*p)` and the post-debit balance is appended, and the order becomes
`filled` with `fill_price = p`; otherwise the order becomes `rejected`
and nothing else changes. -/
theorem market_buy_execution (st : LedgerState) (oid : Nat) (o : Order)
    (stock : Stock) (bal : ℚ)
    (hfind : st.orders.find? (fun x => x.id == oid) = some o)
    (hpend : o.status = .pending) (hside : o.side = .buy) (hty : o.otype = .market)
    (hstock : st.stocks o.ticker = some stock)
    (hacct : st.cash_accounts o.user_id = some bal) :
    (o.quantity ≤ stock.available_shares ∧ o.quantity * stock.price ≤ bal →
      attempt_execute true st oid = .ok { st with
        cash_accounts := fun u => if u = o.user_id then
            some (bal - o.quantity * stock.price) else st.cash_accounts u
        stocks := fun t => if t = o.ticker then
            some { stock with available_shares := stock.available_shares - o.quantity }
          else st.stocks t
        holdings := fun u t => if u = o.user_id ∧ t = o.ticker then
            some ((st.holdings o.user_id o.ticker).getD 0 + o.quantity)
          else st.holdings u t
        transactions := st.transactions ++
          [⟨o.user_id, "buy", some o.ticker, some o.quantity, some stock.price,
            -(o.quantity * stock.price), some (bal - o.quantity * stock.price)⟩]
        orders := fillOrder st.orders oid stock.price })
    ∧ (¬ (o.quantity ≤ stock.available_shares ∧ o.quantity * stock.price ≤ bal) →
      attempt_execute true st oid =
        .ok { st with orders := setOrderStatus st.orders oid .rejected }) := by
  constructor
  · rintro ⟨hq, hb⟩
    have h1 : ¬ (stock.available_shares < o.quantity) := not_lt.2 hq
    have h2 : ¬ (bal < o.quantity * stock.price) := not_lt.2 hb
    unfold attempt_execute
    rw [hfind]
    simp only [determine_fill_price, hpend, hty, hside, hstock, hacct, h1, h2,
      ne_eq, not_true_eq_false, if_false, not_false_eq_true, ite_true, ite_false]
    have hh : (match st.holdings o.user_id o.ticker with
        | some q => q + o.quantity
        | none => o.quantity) = (st.holdings o.user_id o.ticker).getD 0 + o.quantity := by
      cases hv : st.holdings o.user_id o.ticker with
      | none => simp
      | some q => simp
    simp [hh]
  · intro hneg
    unfold attempt_execute
    rw [hfind]
    by_cases h1 : stock.available_shares < o.quantity
    · simp [determine_fill_price, hpend, hty, hside, hstock, hacct, h1]
    · have h2 : bal < o.quantity * stock.price := by
        rcases not_and_or.1 hneg with h | h
        · exact absurd (not_lt.1 h1) h
        · exact not_le.1 h
      simp [determine_fill_price, hpend, hty, hside, hstock, hacct, h1, h2]

/-- Concrete scenario pieces for the C1 witness. -/
def c1Order : Order := ⟨1, 1, "ACME", 5, .buy, .market, none, .pending, none⟩

def c1Stock : Stock := ⟨"Acme", "ACME", 100, 10⟩

def c1St : LedgerState :=
  { emptyState with
    stocks := fun t => if t = "ACME" then some c1Stock else none
    cash_accounts := fun u => if u = 1 then some 1000 else none
    orders := [c1Order] }

/-- Witness for C1 at a concrete fillable scenario (quantity 5, price 10,
shares 100, balance 1000). -/
theorem market_buy_execution_witness :
    (c1St.orders.find? (fun x => x.id == 1) = some c1Order)
    ∧ c1Order.status = .pending ∧ c1Order.side = .buy ∧ c1Order.otype = .market
    ∧ c1St.stocks c1Order.ticker = some c1Stock
    ∧ c1St.cash_accounts c1Order.user_id = some 1000
    ∧ ((c1Order.quantity ≤ c1Stock.available_shares ∧
          c1Order.quantity * c1Stock.price ≤ 1000 →
        attempt_execute true c1St 1 = .ok { c1St with
          cash_accounts := fun u => if u = c1Order.user_id then
              some (1000 - c1Order.quantity * c1Stock.price) else c1St.cash_accounts u
          stocks := fun t => if t = c1Order.ticker then
              some { c1Stock with
                available_shares := c1Stock.available_shares - c1Order.quantity }
            else c1St.stocks t
          holdings := fun u t => if u = c1Order.user_id ∧ t = c1Order.ticker then
              some ((c1St.holdings c1Order.user_id c1Order.ticker).getD 0 + c1Order.quantity)
            else c1St.holdings u t
          transactions := c1St.transactions ++
            [⟨c1Order.user_id, "buy", some c1Order.ticker, some c1Order.quantity,
              some c1Stock.price, -(c1Order.quantity * c1Stock.price),
              some (1000 - c1Order.quantity * c1Stock.price)⟩]
          orders := fillOrder c1St.orders 1 c1Stock.price })
      ∧ (¬ (c1Order.quantity ≤ c1Stock.available_shares ∧
            c1Order.quantity * c1Stock.price ≤ 1000) →
        attempt_execute true c1St 1 =
          .ok { c1St with orders := setOrderStatus c1St.orders 1 .rejected })) :=
  ⟨rfl, rfl, rfl, rfl, rfl, rfl,
    market_buy_execution c1St 1 c1Order c1Stock 1000 rfl rfl rfl rfl rfl rfl⟩

/-! ### C2: limit-order fillability and the resting-limit-price policy -/

/-- Any pending order whose fill price is determined (market open,
instrument present) reaches a terminal status, and if it fills, the
recorded fill price is exactly the determined one. -/
theorem attempt_execute_fillable_terminal (st : LedgerState) (oid : Nat) (o : Order)
    (stock : Stock) (fp : ℚ)
    (hfind : st.orders.find? (fun x => x.id == oid) = some o)
    (hpend : o.status = .pending)
    (hstock : st.stocks o.ticker = some stock)
    (hdet : determine_fill_price o stock.price = .ok (some fp)) :
    ∃ st', attempt_execute true st oid = .ok st' ∧
      orderStatusOf st' oid ≠ some .pending ∧
      (orderStatusOf st' oid = some .filled → fillPriceOf st' oid = some (some fp)) := by
  have hrej : orderStatusOf
      { st with orders := setOrderStatus st.orders oid .rejected } oid =
        some OrderStatus.rejected := by
    simpa [orderStatusOf] using status_find?_setOrderStatus st.orders oid .rejected o hfind
  unfold attempt_execute
  rw [hfind]
  simp only [hpend, ne_eq, not_true_eq_false, if_false, Bool.not_true, not_false_eq_true,
    ite_true, ite_false, hstock, hdet]
  cases hside : o.side with
  | buy =>
    simp only []
    by_cases h1 : stock.available_shares < o.quantity
    · rw [if_pos h1]
      refine ⟨_, rfl, ?_, ?_⟩
      · rw [hrej]; simp
      · rw [hrej]; intro hc; simp at hc
    · rw [if_neg h1]
      cases hacct : st.cash_accounts o.user_id with
      | none =>
        simp only []
        refine ⟨_, rfl, ?_, ?_⟩
        · rw [hrej]; simp
        · rw [hrej]; intro hc; simp at hc
      | some bal =>
        simp only []
        by_cases h2 : bal < o.quantity * fp
        · rw [if_pos h2]
          refine ⟨_, rfl, ?_, ?_⟩
          · rw [hrej]; simp
          · rw [hrej]; intro hc; simp at hc
        · rw [if_neg h2]
          refine ⟨_, rfl, ?_, ?_⟩
          · have hfill := status_find?_fillOrder st.orders oid fp o hfind
            simp only [orderStatusOf]
            rw [hfill]
            simp
          · intro _
            simpa [fillPriceOf] using fp_find?_fillOrder st.orders oid fp o hfind
  | sell =>
    simp only []
    cases hh : st.holdings o.user_id o.ticker with
    | none =>
      simp only []
      refine ⟨_, rfl, ?_, ?_⟩
      · rw [hrej]; simp
      · rw [hrej]; intro hc; simp at hc
    | some hq =>
      simp only []
      by_cases h2 : hq < o.quantity
      · rw [if_pos h2]
        refine ⟨_, rfl, ?_, ?_⟩
        · rw [hrej]; simp
        · rw [hrej]; intro hc; simp at hc
      · rw [if_neg h2]
        refine ⟨_, rfl, ?_, ?_⟩
        · have hfill := status_find?_fillOrder st.orders oid fp o hfind
          simp only [orderStatusOf]
          rw [hfill]
          simp
        · intro _
          simpa [fillPriceOf] using fp_find?_fillOrder st.orders oid fp o hfind

/-- C2: a pending limit buy is treated as fillable iff
`limitPrice >= instrument.price` and, whenever it fills, the recorded
`fill_price` is the resting limit price (even when the market price is
strictly lower); a limit sell symmetrically is fillable iff
`limitPrice <= instrument.price` and fills at the limit price.  When not
fillable, `attempt_execute` returns the state unchanged (the order stays
pending). -/
theorem limit_order_fill_policy (st : LedgerState) (oid : Nat) (o : Order)
    (stock : Stock) (lp : ℚ)
    (hfind : st.orders.find? (fun x => x.id == oid) = some o)
    (hpend : o.status = .pending) (hty : o.otype = .limit)
    (hlp : o.limit_price = some lp)
    (hstock : st.stocks o.ticker = some stock) :
    (o.side = .buy →
      (stock.price ≤ lp →
        ∃ st', attempt_execute true st oid = .ok st' ∧
          orderStatusOf st' oid ≠ some .pending ∧
          (orderStatusOf st' oid = some .filled → fillPriceOf st' oid = some (some lp)))
      ∧ (lp < stock.price → attempt_execute true st oid = .ok st))
    ∧ (o.side = .sell →
      (lp ≤ stock.price →
        ∃ st', attempt_execute true st oid = .ok st' ∧
          orderStatusOf st' oid ≠ some .pending ∧
          (orderStatusOf st' oid = some .filled → fillPriceOf st' oid = some (some lp)))
      ∧ (stock.price < lp → attempt_execute true st oid = .ok st)) := by
  constructor
  · intro hside
    constructor
    · intro hfillable
      refine attempt_execute_fillable_terminal st oid o stock lp hfind hpend hstock ?_
      simp [determine_fill_price, hty, hlp, hside, hfillable]
    · intro hnot
      unfold attempt_execute
      rw [hfind]
      simp [determine_fill_price, hpend, hty, hlp, hside, hstock, not_le.2 hnot]
  · intro hside
    constructor
    · intro hfillable
      refine attempt_execute_fillable_terminal st oid o stock lp hfind hpend hstock ?_
      simp [determine_fill_price, hty, hlp, hside, hfillable]
    · intro hnot
      unfold attempt_execute
      rw [hfind]
      simp [determine_fill_price, hpend, hty, hlp, hside, hstock, not_le.2 hnot]

/-- Concrete scenario pieces for the C2 witness: a limit buy resting at
12 while the market price is 10 (strictly lower). -/
def c2Order : Order := ⟨1, 1, "ACME", 5, .buy, .limit, some 12, .pending, none⟩

def c2Stock : Stock := ⟨"Acme", "ACME", 100, 10⟩

def c2St : LedgerState :=
  { emptyState with
    stocks := fun t => if t = "ACME" then some c2Stock else none
    cash_accounts := fun u => if u = 1 then some 1000 else none
    orders := [c2Order] }

/-- Witness for C2. -/
theorem limit_order_fill_policy_witness :
    (c2St.orders.find? (fun x => x.id == 1) = some c2Order)
    ∧ c2Order.status = .pending ∧ c2Order.otype = .limit
    ∧ c2Order.limit_price = some 12
    ∧ c2St.stocks c2Order.ticker = some c2Stock
    ∧ ((c2Order.side = .buy →
        (c2Stock.price ≤ 12 →
          ∃ st', attempt_execute true c2St 1 = .ok st' ∧
            orderStatusOf st' 1 ≠ some .pending ∧
            (orderStatusOf st' 1 = some .filled → fillPriceOf st' 1 = some (some 12)))
        ∧ ((12:ℚ) < c2Stock.price → attempt_execute true c2St 1 = .ok c2St))
      ∧ (c2Order.side = .sell →
        ((12:ℚ) ≤ c2Stock.price →
          ∃ st', attempt_execute true c2St 1 = .ok st' ∧
            orderStatusOf st' 1 ≠ some .pending ∧
            (orderStatusOf st' 1 = some .filled → fillPriceOf st' 1 = some (some 12)))
        ∧ (c2Stock.price < 12 → attempt_execute true c2St 1 = .ok c2St))) :=
  ⟨rfl, rfl, rfl, rfl, rfl,
    limit_order_fill_policy c2St 1 c2Order c2Stock 12 rfl rfl rfl rfl rfl⟩

/-! ### Branch analysis of `attempt_execute` -/

/-- Every successful `attempt_execute` call either leaves the state
unchanged, or acts on a pending order found under `order_id` and either
only marks it rejected (touching nothing else) or fills it (the orders
table becoming the fill update). -/
theorem attempt_execute_orders_cases (mo : Bool) (st : LedgerState) (oid : Nat)
    (st' : LedgerState) (h : attempt_execute mo st oid = .ok st') :
    (st' = st) ∨
    ((∃ o, st.orders.find? (fun y => y.id == oid) = some o ∧ o.status = .pending) ∧
      ((st' = { st with orders := setOrderStatus st.orders oid .rejected }) ∨
       (∃ fp, st'.orders = fillOrder st.orders oid fp))) := by
  unfold attempt_execute at h
  cases hfind : st.orders.find? (fun x => x.id == oid) with
  | none =>
    rw [hfind] at h
    injection h with h1
    exact Or.inl h1.symm
  | some o =>
    rw [hfind] at h
    simp only [] at h
    by_cases hp : o.status = OrderStatus.pending
    · rw [if_neg (not_not_intro hp)] at h
      cases mo with
      | false =>
        rw [if_pos (by simp)] at h
        injection h with h1
        exact Or.inl h1.symm
      | true =>
        rw [if_neg (by simp)] at h
        cases hstock : st.stocks o.ticker with
        | none =>
          rw [hstock] at h
          injection h with h1
          exact Or.inr ⟨⟨o, rfl, hp⟩, Or.inl h1.symm⟩
        | some stock =>
          rw [hstock] at h
          simp only [] at h
          cases hdet : determine_fill_price o stock.price with
          | error e =>
            rw [hdet] at h
            exact Except.noConfusion h
          | ok ofp =>
            rw [hdet] at h
            cases ofp with
            | none =>
              simp only [] at h
              injection h with h1
              exact Or.inl h1.symm
            | some fp =>
              cases hside : o.side with
              | buy =>
                rw [hside] at h
                simp only [] at h
                by_cases h1 : stock.available_shares < o.quantity
                · rw [if_pos h1] at h
                  injection h with h2
                  exact Or.inr ⟨⟨o, rfl, hp⟩, Or.inl h2.symm⟩
                · rw [if_neg h1] at h
                  cases hacct : st.cash_accounts o.user_id with
                  | none =>
                    rw [hacct] at h
                    simp only [] at h
                    injection h with h2
                    exact Or.inr ⟨⟨o, rfl, hp⟩, Or.inl h2.symm⟩
                  | some bal =>
                    rw [hacct] at h
                    simp only [] at h
                    by_cases h2 : bal < o.quantity * fp
                    · rw [if_pos h2] at h
                      injection h with h3
                      exact Or.inr ⟨⟨o, rfl, hp⟩, Or.inl h3.symm⟩
                    · rw [if_neg h2] at h
                      injection h with h3
                      refine Or.inr ⟨⟨o, rfl, hp⟩, Or.inr ⟨fp, ?_⟩⟩
                      rw [← h3]
              | sell =>
                rw [hside] at h
                simp only [] at h
                cases hh : st.holdings o.user_id o.ticker with
                | none =>
                  rw [hh] at h
                  simp only [] at h
                  injection h with h2
                  exact Or.inr ⟨⟨o, rfl, hp⟩, Or.inl h2.symm⟩
                | some hq =>
                  rw [hh] at h
                  simp only [] at h
                  by_cases h2 : hq < o.quantity
                  · rw [if_pos h2] at h
                    injection h with h3
                    exact Or.inr ⟨⟨o, rfl, hp⟩, Or.inl h3.symm⟩
                  · rw [if_neg h2] at h
                    injection h with h3
                    refine Or.inr ⟨⟨o, rfl, hp⟩, Or.inr ⟨fp, ?_⟩⟩
                    rw [← h3]
    · rw [if_pos hp] at h
      injection h with h1
      exact Or.inl h1.symm

theorem attempt_execute_ok_of_terminal (mo : Bool) (st : LedgerState) (oid : Nat)
    (o : Order) (hfind : st.orders.find? (fun x => x.id == oid) = some o)
    (hterm : o.status ≠ .pending) :
    attempt_execute mo st oid = .ok st := by
  unfold attempt_execute
  rw [hfind]
  simp only []
  rw [if_pos hterm]

/-! ### C4: no-op on absent/terminal orders; idempotence -/

/-- C4: `attempt_execute` leaves the state unchanged when the order id is
absent or the order is not pending; calling it twice yields the same state
as calling it once; and any terminal (filled/cancelled/rejected) order row
is never mutated by a later call, whatever id that call targets. -/
theorem attempt_execute_idempotent (mo : Bool) (st st' : LedgerState) (oid : Nat)
    (h : attempt_execute mo st oid = .ok st') :
    (st.orders.find? (fun x => x.id == oid) = none → st' = st)
    ∧ (∀ o, st.orders.find? (fun x => x.id == oid) = some o →
        o.status ≠ .pending → st' = st)
    ∧ attempt_execute mo st' oid = .ok st'
    ∧ (∀ n x, st.orders.find? (fun y => y.id == n) = some x → x.status ≠ .pending →
        st'.orders.find? (fun y => y.id == n) = some x) := by
  refine ⟨?_, ?_, ?_, ?_⟩
  · intro hnone
    unfold attempt_execute at h
    rw [hnone] at h
    injection h with h1
    exact h1.symm
  · intro o hfind hterm
    rw [attempt_execute_ok_of_terminal mo st oid o hfind hterm] at h
    injection h with h1
    exact h1.symm
  · rcases attempt_execute_orders_cases mo st oid st' h with heq | ⟨⟨o, hfind, hp⟩, hmut⟩
    · subst heq
      exact h
    · have ho2 : o.id = oid := by simpa using List.find?_some hfind
      rcases hmut with hrej | ⟨fp, hfill⟩
      · have hfind2 : st'.orders.find? (fun x => x.id == oid) =
            some { o with status := OrderStatus.rejected } := by
          rw [hrej]
          simp only []
          rw [find?_setOrderStatus, hfind]
          simp [ho2]
        exact attempt_execute_ok_of_terminal mo st' oid _ hfind2 (by simp)
      · have hfind2 : st'.orders.find? (fun x => x.id == oid) =
            some { o with status := OrderStatus.filled, fill_price := some fp } := by
          rw [hfill, find?_fillOrder, hfind]
          simp [ho2]
        exact attempt_execute_ok_of_terminal mo st' oid _ hfind2 (by simp)
  · intro n x hx hxterm
    rcases attempt_execute_orders_cases mo st oid st' h with heq | ⟨⟨o, hfind, hp⟩, hmut⟩
    · rw [heq]
      exact hx
    · have hxn : x.id = n := by simpa using List.find?_some hx
      have hxo : ¬ (x.id == oid) = true := by
        intro hbeq
        have hxoid : x.id = oid := by simpa using hbeq
        have hno : n = oid := hxn.symm.trans hxoid
        rw [hno] at hx
        rw [hfind] at hx
        injection hx with h4
        exact hxterm (h4 ▸ hp)
      rcases hmut with hrej | ⟨fp, hfill⟩
      · rw [hrej]
        simp only []
        rw [find?_setOrderStatus, hx]
        simp [hxo]
        intro hxoid
        exact absurd (by simp [hxoid]) hxo
      · rw [hfill, find?_fillOrder, hx]
        simp [hxo]
        intro hxoid
        exact absurd (by simp [hxoid]) hxo

/-- Concrete state for the C4 witness: one already-rejected order. -/
def c4St : LedgerState :=
  { emptyState with orders := [⟨1, 1, "ACME", 5, .buy, .market, none, .rejected, none⟩] }

/-- Witness for C4: a call on a rejected order is a no-op and idempotent. -/
theorem attempt_execute_idempotent_witness :
    (attempt_execute true c4St 1 = .ok c4St)
    ∧ ((c4St.orders.find? (fun x => x.id == 1) = none → c4St = c4St)
      ∧ (∀ o, c4St.orders.find? (fun x => x.id == 1) = some o →
          o.status ≠ .pending → c4St = c4St)
      ∧ attempt_execute true c4St 1 = .ok c4St
      ∧ (∀ n x, c4St.orders.find? (fun y => y.id == n) = some x →
          x.status ≠ .pending →
          c4St.orders.find? (fun y => y.id == n) = some x)) :=
  ⟨rfl, attempt_execute_idempotent true c4St c4St 1 rfl⟩

/-! ### C7: reject paths change nothing but the order status -/

/-- C7: whenever `attempt_execute` turns a pending order into `rejected`
(instrument missing, short shares, short cash, missing/short holding),
the status flip is the only state change: users, stocks, cash accounts,
holdings and transactions are untouched and the orders table is exactly
the status update. -/
theorem reject_paths_only_touch_status (mo : Bool) (st st' : LedgerState) (oid : Nat)
    (o : Order)
    (h : attempt_execute mo st oid = .ok st')
    (hfind : st.orders.find? (fun x => x.id == oid) = some o)
    (hpend : o.status = .pending)
    (hrej : orderStatusOf st' oid = some .rejected) :
    st' = { st with orders := setOrderStatus st.orders oid .rejected } := by
  rcases attempt_execute_orders_cases mo st oid st' h with heq | ⟨⟨o2, hfind2, hp2⟩, hmut⟩
  · subst heq
    unfold orderStatusOf at hrej
    rw [hfind] at hrej
    simp [hpend] at hrej
  · rcases hmut with hok | ⟨fp, hfill⟩
    · exact hok
    · have ho2 : o.id = oid := by simpa using List.find?_some hfind
      have hfil : orderStatusOf st' oid = some .filled := by
        unfold orderStatusOf
        rw [hfill, find?_fillOrder, hfind]
        simp [ho2]
      rw [hfil] at hrej
      simp at hrej

/-- Concrete scenario for the C7 witness: a market buy for 5 shares when
only 1 is available, rejected on the shares check. -/
def c7St : LedgerState :=
  { emptyState with
    stocks := fun t => if t = "ACME" then some ⟨"Acme", "ACME", 1, 10⟩ else none
    cash_accounts := fun u => if u = 1 then some 1000 else none
    orders := [⟨1, 1, "ACME", 5, .buy, .market, none, .pending, none⟩] }

/-- Witness for C7. -/
theorem reject_paths_only_touch_status_witness :
    (attempt_execute true c7St 1 =
      .ok { c7St with orders := setOrderStatus c7St.orders 1 .rejected })
    ∧ (c7St.orders.find? (fun x => x.id == 1) =
        some ⟨1, 1, "ACME", 5, .buy, .market, none, .pending, none⟩)
    ∧ (⟨1, 1, "ACME", 5, .buy, .market, none, .pending, none⟩ : Order).status = .pending
    ∧ orderStatusOf { c7St with orders := setOrderStatus c7St.orders 1 .rejected } 1 =
        some .rejected
    ∧ ({ c7St with orders := setOrderStatus c7St.orders 1 .rejected } : LedgerState) =
        { c7St with orders := setOrderStatus c7St.orders 1 .rejected } :=
  ⟨by with_unfolding_all rfl, rfl, rfl, rfl,
    reject_paths_only_touch_status true c7St
      { c7St with orders := setOrderStatus c7St.orders 1 .rejected } 1
      ⟨1, 1, "ACME", 5, .buy, .market, none, .pending, none⟩
      (by with_unfolding_all rfl) rfl rfl rfl⟩

/-! ### C9: `limit_price` presence versus order type (corrected) -/

/-- Base state for the C9 scenarios: one user, one stock. -/
def c9St : LedgerState :=
  { emptyState with
    users := [⟨1, "Alice Ann", "alice", "alice@example.com"⟩]
    stocks := fun t => if t = "ACME" then some ⟨"Acme", "ACME", 100, 10⟩ else none
    cash_accounts := fun u => if u = 1 then some 1000 else none }

/-- C9 counterexample: `place_order` accepts a MARKET order submitted with
`price = 5` and stores `limit_price = some 5` on it, so "limitPrice is
present and positive iff the order type is limit" fails: this accepted
order is market-typed yet carries a present, positive limit price. -/
theorem market_order_stores_limit_price :
    (place_order false c9St 1 "ACME" 1 "buy" "market" (some 5)).toOption.map
      (fun p => (p.1.orders.find? (fun o => o.id == p.2)).map
        (fun o => (o.otype, o.limit_price, o.status))) =
      some (some (OrderType.market, some 5, OrderStatus.pending)) := by
  with_unfolding_all rfl

theorem attempt_execute_preserves_immutable_fields (mo : Bool) (st : LedgerState)
    (oid : Nat) (st' : LedgerState) (n : Nat) (x : Order)
    (h : attempt_execute mo st oid = .ok st')
    (hx : st.orders.find? (fun y => y.id == n) = some x) :
    ∃ x', st'.orders.find? (fun y => y.id == n) = some x' ∧
      x'.otype = x.otype ∧ x'.limit_price = x.limit_price := by
  rcases attempt_execute_orders_cases mo st oid st' h with heq | ⟨_, hmut⟩
  · rw [heq]
    exact ⟨x, hx, rfl, rfl⟩
  · rcases hmut with hrej | ⟨fp, hfill⟩
    · rw [hrej]
      simp only []
      rw [find?_setOrderStatus, hx]
      refine ⟨_, rfl, ?_, ?_⟩ <;> by_cases hxo : (x.id == oid) = true <;> simp [hxo]
    · rw [hfill, find?_fillOrder, hx]
      refine ⟨_, rfl, ?_, ?_⟩ <;> by_cases hxo : (x.id == oid) = true <;> simp [hxo]

/-- C9 amended: every order accepted by `place_order` satisfies: if its
type is limit then the submitted price was present and positive and is
stored as its `limit_price` (so `place_order` fails on a limit order with
missing or non-positive price); but a market order simply stores the
submitted `price` argument verbatim as `limit_price` (typically `none`,
yet possibly present), so presence of `limit_price` does not imply the
order is a limit order. -/
theorem place_order_limit_price_amended (mo : Bool) (st : LedgerState) (u : Nat)
    (tk : String) (q : ℚ) (sd ot : String) (pr : Option ℚ)
    (st' : LedgerState) (oid : Nat)
    (hids : ∀ x ∈ st.orders, x.id ≠ st.orders.length + 1)
    (h : place_order mo st u tk q sd ot pr = .ok (st', oid)) :
    ∃ o, st'.orders.find? (fun y => y.id == oid) = some o ∧
      (o.otype = .limit → ∃ lp, pr = some lp ∧ 0 < lp ∧ o.limit_price = some lp) ∧
      (o.otype = .market → o.limit_price = pr) := by
  unfold place_order at h
  simp only [] at h
  by_cases h1 : q ≤ 0
  · rw [if_pos h1] at h
    exact Except.noConfusion h
  rw [if_neg h1] at h
  by_cases h2 : sd.toLower ≠ "buy" ∧ sd.toLower ≠ "sell"
  · rw [if_pos h2] at h
    exact Except.noConfusion h
  rw [if_neg h2] at h
  by_cases h3 : ot.toLower ≠ "market" ∧ ot.toLower ≠ "limit"
  · rw [if_pos h3] at h
    exact Except.noConfusion h
  rw [if_neg h3] at h
  by_cases h4 : ot.toLower = "limit" ∧ limitPriceInvalid pr
  · rw [if_pos h4] at h
    exact Except.noConfusion h
  rw [if_neg h4] at h
  by_cases h5 : (st.users.find? (fun x => x.id == u)).isNone
  · rw [if_pos h5] at h
    exact Except.noConfusion h
  rw [if_neg h5] at h
  cases hstock : st.stocks tk.toUpper with
  | none =>
    rw [hstock] at h
    exact Except.noConfusion h
  | some sstock =>
    rw [hstock] at h
    simp only [] at h
    cases hax : attempt_execute mo
        { st with orders := st.orders ++
            [{ id := st.orders.length + 1, user_id := u, ticker := tk.toUpper,
               quantity := q,
               side := if sd.toLower = "buy" then .buy else .sell,
               otype := if ot.toLower = "market" then .market else .limit,
               limit_price := pr, status := .pending, fill_price := none }] }
        (st.orders.length + 1) with
    | error e =>
      rw [hax] at h
      exact Except.noConfusion h
    | ok st2 =>
      rw [hax] at h
      simp only [] at h
      injection h with hpair
      injection hpair with hst2 hoid
      subst hst2
      subst hoid
      have hfind1 : ({ st with orders := st.orders ++
          [{ id := st.orders.length + 1, user_id := u, ticker := tk.toUpper,
             quantity := q,
             side := if sd.toLower = "buy" then .buy else .sell,
             otype := if ot.toLower = "market" then .market else .limit,
             limit_price := pr, status := .pending, fill_price := none }] } :
            LedgerState).orders.find?
          (fun y => y.id == st.orders.length + 1) =
          some (⟨st.orders.length + 1, u, tk.toUpper, q,
             (if sd.toLower = "buy" then .buy else .sell),
             (if ot.toLower = "market" then .market else .limit),
             pr, .pending, none⟩ : Order) := by
        simp only []
        rw [List.find?_append]
        have hl : st.orders.find? (fun y => y.id == st.orders.length + 1) = none := by
          rw [List.find?_eq_none]
          intro x hmem
          simpa using hids x hmem
        rw [hl]
        simp
      obtain ⟨o, hfindo, hoty, holp⟩ :=
        attempt_execute_preserves_immutable_fields mo _ (st.orders.length + 1) _
          (st.orders.length + 1) _ hax hfind1
      refine ⟨o, hfindo, ?_, ?_⟩
      · intro hol
        rw [hol] at hoty
        by_cases hm : ot.toLower = "market"
        · rw [if_pos hm] at hoty
          exact OrderType.noConfusion hoty.symm
        · have hlim : ot.toLower = "limit" := by
            rcases not_and_or.1 h3 with hc | hc
            · exact absurd (not_not.1 hc) hm
            · exact not_not.1 hc
          have hvalid : ¬ limitPriceInvalid pr := fun hbad => h4 ⟨hlim, hbad⟩
          cases hpr : pr with
          | none =>
            rw [hpr] at hvalid
            exact absurd rfl hvalid
          | some lp =>
            rw [hpr] at hvalid
            refine ⟨lp, rfl, ?_, ?_⟩
            · by_contra hnp
              exact hvalid (by simp [limitPriceInvalid, not_lt.1 hnp])
            · rw [holp, hpr]
      · intro hom
        rw [holp]

/-- Witness for the amended C9 at a concrete accepted limit order
(market closed, so the stored order stays pending). -/
theorem place_order_limit_price_amended_witness :
    (∀ x ∈ (c9St.orders : List Order), x.id ≠ c9St.orders.length + 1)
    ∧ (place_order false c9St 1 "ACME" 1 "buy" "limit" (some 7) =
        .ok ({ c9St with orders :=
          [⟨1, 1, "ACME", 1, .buy, .limit, some 7, .pending, none⟩] }, 1))
    ∧ (∃ o, ({ c9St with orders :=
          [⟨1, 1, "ACME", 1, .buy, .limit, some 7, .pending, none⟩] } :
            LedgerState).orders.find? (fun y => y.id == 1) = some o ∧
        (o.otype = .limit → ∃ lp, (some 7 : Option ℚ) = some lp ∧ 0 < lp ∧
          o.limit_price = some lp) ∧
        (o.otype = .market → o.limit_price = some 7)) :=
  ⟨by simp [c9St, emptyState], by with_unfolding_all rfl,
    place_order_limit_price_amended false c9St 1 "ACME" 1 "buy" "limit" (some 7)
      { c9St with orders := [⟨1, 1, "ACME", 1, .buy, .limit, some 7, .pending, none⟩] } 1
      (by simp [c9St, emptyState]) (by with_unfolding_all rfl)⟩

/-! ### C8: buy-then-sell round trip at a fixed price -/

/-- C8 scenario, built through the public operations: create a user,
create ACME with 1000 total shares at price 10, deposit 5000. -/
def rt1 : LedgerState :=
  ((create_user emptyState "Alice Ann" "alice" "alice@example.com").toOption.map
    Prod.fst).getD emptyState

def rt2 : LedgerState := ((create_stock rt1 "Acme Corp" "ACME" 1000 10).toOption).getD rt1

def rt3 : LedgerState := ((deposit_cash rt2 1 5000).toOption.map Prod.fst).getD rt2

/-- After a market buy of 100 shares. -/
def rt4 : LedgerState :=
  ((place_order true rt3 1 "ACME" 100 "buy" "market" none).toOption.map Prod.fst).getD rt3

/-- After selling the 100 shares back. -/
def rt5 : LedgerState :=
  ((place_order true rt4 1 "ACME" 100 "sell" "market" none).toOption.map Prod.fst).getD rt4

/-- C8: the buy leaves balance 4000, holding 100, availableShares 900 and
a filled order; the sell restores balance 5000, holding 0, availableShares
1000, filling at the same price 10. -/
theorem round_trip_restores_state :
    get_cash_balance rt4 1 = .ok 4000 ∧ rt4.holdings 1 "ACME" = some 100 ∧
    (rt4.stocks "ACME").map (fun s => s.available_shares) = some 900 ∧
    orderStatusOf rt4 1 = some .filled ∧
    get_cash_balance rt5 1 = .ok 5000 ∧ rt5.holdings 1 "ACME" = some 0 ∧
    (rt5.stocks "ACME").map (fun s => s.available_shares) = some 1000 ∧
    orderStatusOf rt5 2 = some .filled ∧ fillPriceOf rt5 2 = some (some 10) := by
  refine ⟨?_, ?_, ?_, ?_, ?_, ?_, ?_, ?_, ?_⟩ <;> with_unfolding_all rfl

/-! ### C3: price update re-evaluates pending orders oldest-first (FIFO) -/

/-- Two competing pending market buys on one instrument (C3 scenario):
order 1 was created before order 2 (lower primary key, earlier position
in the table). -/
def c3St (u1 u2 : Nat) (q1 q2 A b1 b2 p0 : ℚ) : LedgerState :=
  { emptyState with
    stocks := fun t => if t = "ACME" then some ⟨"Acme", "ACME", A, p0⟩ else none
    cash_accounts := fun u => if u = u1 then some b1 else if u = u2 then some b2 else none
    orders := [⟨1, u1, "ACME", q1, .buy, .market, none, .pending, none⟩,
               ⟨2, u2, "ACME", q2, .buy, .market, none, .pending, none⟩] }

/-- C3: `update_stock_price` persists the new price and re-runs
`attempt_execute` over the ticker's pending orders in table
(creation-time) order, oldest first: when the two pending buys compete
for an `available_shares` pool too small for both (`q1 <= A < q1 + q2`)
and the earlier buyer can pay, the earlier-created order fills and the
later-created one is rejected. -/
theorem fifo_contested_shares (u1 u2 : Nat) (q1 q2 A b1 b2 p0 p : ℚ)
    (hp : 0 < p) (hq1A : q1 ≤ A) (hcontend : A < q1 + q2)
    (hcash1 : q1 * p ≤ b1) :
    ∃ st', update_stock_price true (c3St u1 u2 q1 q2 A b1 b2 p0) "ACME" p = .ok st' ∧
      orderStatusOf st' 1 = some .filled ∧ orderStatusOf st' 2 = some .rejected := by
  have hupper : "ACME".toUpper = "ACME" := by with_unfolding_all rfl
  have hnl : ¬ (p ≤ 0) := not_le.2 hp
  have h1 : ¬ (A < q1) := not_lt.2 hq1A
  have h2 : A - q1 < q2 := by linarith
  have hb1 : ¬ (b1 < q1 * p) := not_lt.2 hcash1
  simp only [update_stock_price, hupper, hnl, if_false, ite_false]
  simp only [c3St, emptyState, trigger_pending_orders_for_ticker, hupper]
  simp only [if_true, ite_true, List.filter_cons, List.filter_nil, List.map_cons,
    List.map_nil, Option.map_some, run_attempts]
  simp [attempt_execute, determine_fill_price, fillOrder, setOrderStatus, orderStatusOf,
    List.find?, h1, h2, hb1]

/-- Witness for C3 (u1 = 1, u2 = 2, q1 = 60, q2 = 50, 100 shares,
both funded with 1000, price moving from 8 to 10). -/
theorem fifo_contested_shares_witness :
    ((0:ℚ) < 10 ∧ (60:ℚ) ≤ 100 ∧ (100:ℚ) < 60 + 50 ∧ (60:ℚ) * 10 ≤ 1000)
    ∧ (∃ st', update_stock_price true (c3St 1 2 60 50 100 1000 1000 8) "ACME" 10 =
          .ok st' ∧
        orderStatusOf st' 1 = some .filled ∧ orderStatusOf st' 2 = some .rejected) :=
  ⟨⟨by decide, by decide, by with_unfolding_all decide, by with_unfolding_all decide⟩,
    fifo_contested_shares 1 2 60 50 100 1000 1000 8 10 (by decide) (by decide)
      (by with_unfolding_all decide) (by with_unfolding_all decide)⟩

end CloudTrade
